import Mathlib

/-!
Shallow embedding of the Transformers-from-scratch repository
(src/Encoder_Decoder.ipynb and src/Decoder.ipynb) and verification of the
frozen claims about it.

Modelling conventions, used throughout:

* A tensor of shape (N, T, D) is a function Fin N → Fin T → Fin D → Option K,
  where K is an arbitrary linear ordered field standing for the exact real
  numbers computed by the program.  The value none models an IEEE undefined
  result (NaN); ordinary finite float values are some x.  All arithmetic
  primitives (nadd, nsub, nmul, ndiv, nsum below) propagate none exactly the
  way IEEE arithmetic propagates NaN.  Infinities never arise in this program
  except as the -inf written by masked_fill directly before a softmax, which
  is given its own representation (FScore.ninf) scoped to the score stage.
* Transcendental leaf functions (exp inside softmax, math.sqrt, GELU, sin,
  cos, log) are irrational over an abstract field, so they are supplied as an
  explicit record of primitive functions (Prims).  Theorems either hold for
  every choice of these primitives or take the relevant analytic facts
  (for instance that exp is positive) as hypotheses; the real-number
  instance ⟨Real.exp, Real.sqrt, …⟩ is used where the closed sinusoidal
  formula itself is at stake.
* Learned weights are plain K-valued functions: they are ordinary finite
  floats in the program.
* torch.nn.Dropout is the identity in evaluation mode; forward functions
  are modelled in evaluation mode (the deterministic semantics every claim
  quantifies over), with the dropout call kept visible as dropoutEval.
* Shapes are tracked by types, so the reshape/transpose steps of the
  multi-head layout become index arithmetic (headIdx, headOf, dimOf below).
-/

/-! ### IEEE-style arithmetic on Option K (none = NaN) -/

/-- Addition with NaN propagation: x + NaN = NaN + x = NaN. -/
def nadd {K : Type} [Add K] : Option K → Option K → Option K
  | some a, some b => some (a + b)
  | _, _ => none

/-- Subtraction with NaN propagation. -/
def nsub {K : Type} [Sub K] : Option K → Option K → Option K
  | some a, some b => some (a - b)
  | _, _ => none

/-- Multiplication with NaN propagation (as in IEEE, 0 * NaN = NaN). -/
def nmul {K : Type} [Mul K] : Option K → Option K → Option K
  | some a, some b => some (a * b)
  | _, _ => none

/-- Division with NaN propagation.  A zero denominator yields none: the one
place in this program where a denominator can actually be zero is the softmax
normalisation over a fully masked row, where the numerator is then also zero
and IEEE produces 0/0 = NaN; every other denominator (sqrt of d_k, sqrt of
variance + eps, a nonzero length) is a positive real in the program. -/
def ndiv {K : Type} [Div K] [Zero K] [DecidableEq K] : Option K → Option K → Option K
  | some a, some b => if b = 0 then none else some (a / b)
  | _, _ => none

/-- Sum of a family with NaN propagation: the sum is defined iff every term
is, exactly as a float reduction containing a NaN returns NaN. -/
def nsum {K : Type} [AddCommMonoid K] : {n : ℕ} → (Fin n → Option K) → Option K
  | 0, _ => some 0
  | _ + 1, f => nadd (f 0) (nsum fun i => f i.succ)

/-! ### Attention scores after masked_fill

A score entering softmax is either an ordinary value (possibly NaN) or the
-inf written by Tensor.masked_fill.  FScore keeps the two non-finite cases
distinct: exp(-inf) = 0 while exp(NaN) = NaN. -/

/-- A float score: FScore.val v is a finite-or-NaN value, FScore.ninf is the
-inf produced by masked_fill. -/
inductive FScore (K : Type) where
  | val : Option K → FScore K
  | ninf : FScore K
deriving DecidableEq

/-- exp of a score as computed inside F.softmax: exp(-inf) = 0,
exp(NaN) = NaN, exp(x) = E x for the real exponential E. -/
def mexp {K : Type} [Zero K] (E : K → K) : FScore K → Option K
  | FScore.ninf => some 0
  | FScore.val none => none
  | FScore.val (some x) => some (E x)

/-- One row of F.softmax(attn_scores, dim=-1): each entry is
exp(s j) / Σ i, exp(s i).  On an all-masked row every numerator and the
denominator are 0 and the result is NaN (none) at every position, which is
what float softmax produces there. -/
def softmaxRow {K : Type} [Field K] [DecidableEq K] (E : K → K) {n : ℕ}
    (s : Fin n → FScore K) : Fin n → Option K :=
  fun j => ndiv (mexp E (s j)) (nsum fun i => mexp E (s i))

/-! ### Primitive transcendental functions and nn building blocks -/

/-- The transcendental primitives used by the model, abstracted over the
field: torch.exp (inside softmax), math.sqrt, F.gelu, torch.sin, torch.cos,
math.log. -/
structure Prims (K : Type) where
  exp : K → K
  sqrt : K → K
  gelu : K → K
  sin : K → K
  cos : K → K
  log : K → K

/-- An nn.Linear(inF, outF) layer: weight matrix and bias. -/
structure Linear (K : Type) (inF outF : ℕ) where
  weight : Fin outF → Fin inF → K
  bias : Fin outF → K

/-- Application of an nn.Linear layer to one feature vector:
y r = Σ c, W r c * x c + b r, with NaN propagation from the input. -/
def Linear.app {K : Type} [Field K] [DecidableEq K] {inF outF : ℕ}
    (l : Linear K inF outF) (x : Fin inF → Option K) : Fin outF → Option K :=
  fun r => nadd (nsum fun c => nmul (some (l.weight r c)) (x c)) (some (l.bias r))

/-- torch.ones(m, n). -/
def ones {K : Type} [One K] (m n : ℕ) : Fin m → Fin n → K :=
  fun _ _ => 1

/-- torch.tril: keep the lower triangle including the diagonal (column index
at most row index), zero elsewhere. -/
def tril {K : Type} [Zero K] {m n : ℕ} (M : Fin m → Fin n → K) : Fin m → Fin n → K :=
  fun i j => if (j : ℕ) ≤ (i : ℕ) then M i j else 0

/-! ### Multi-head index arithmetic

x.view(N, T, n_heads, d_k).transpose(1, 2) sends flat feature index
h * d_k + d to head h, coordinate d; the inverse reshape concatenates the
heads back in the same order. -/

/-- Flat feature index of coordinate d of head h after the (N, T, h·d_k) →
(N, h, T, d_k) reshape. -/
def headIdx {d_k n_heads : ℕ} (h : Fin n_heads) (d : Fin d_k) : Fin (d_k * n_heads) :=
  ⟨(h : ℕ) * d_k + (d : ℕ), by
    calc (h : ℕ) * d_k + (d : ℕ) < (h : ℕ) * d_k + d_k := by
          exact Nat.add_lt_add_left d.isLt _
      _ = ((h : ℕ) + 1) * d_k := (Nat.succ_mul _ _).symm
      _ ≤ n_heads * d_k := Nat.mul_le_mul_right _ (Nat.succ_le_of_lt h.isLt)
      _ = d_k * n_heads := Nat.mul_comm _ _⟩

/-- Head of a flat feature index (inverse reshape). -/
def headOf {d_k n_heads : ℕ} (e : Fin (d_k * n_heads)) : Fin n_heads :=
  ⟨(e : ℕ) / d_k, by
    rcases Nat.eq_zero_or_pos d_k with h0 | h0
    · exact absurd e.isLt (by simp [h0])
    · exact (Nat.div_lt_iff_lt_mul h0).mpr (Nat.mul_comm d_k n_heads ▸ e.isLt)⟩

/-- In-head coordinate of a flat feature index (inverse reshape). -/
def dimOf {d_k n_heads : ℕ} (e : Fin (d_k * n_heads)) : Fin d_k :=
  ⟨(e : ℕ) % d_k, by
    rcases Nat.eq_zero_or_pos d_k with h0 | h0
    · exact absurd e.isLt (by simp [h0])
    · exact Nat.mod_lt _ h0⟩

/-! ### MultiHeadAttention (src/Encoder_Decoder.ipynb, cell-1)

CausalSelfAttention of src/Decoder.ipynb is the same module with the causal
flag fixed to true and T_output = T_input. -/

/-- The MultiHeadAttention module: the four nn.Linear layers created in
__init__ and the causal flag.  d_v = d_k as in the source. -/
structure MultiHeadAttention (K : Type) (d_k d_model n_heads max_len : ℕ) where
  key : Linear K d_model (d_k * n_heads)
  query : Linear K d_model (d_k * n_heads)
  value : Linear K d_model (d_k * n_heads)
  fc : Linear K (d_k * n_heads) d_model
  causal : Bool

/-- The buffer registered in __init__ when causal:
torch.tril(torch.ones(max_len, max_len)), viewed here without its two leading
broadcast dimensions of size 1. -/
def MultiHeadAttention.causal_mask (K : Type) [Zero K] [One K] (max_len : ℕ) :
    Fin max_len → Fin max_len → K :=
  tril (ones max_len max_len)

/-- Raw scaled dot-product scores q @ k.transpose(-2,-1) / math.sqrt(d_k),
per batch element and head, after the linear projections and the head
reshape. -/
def MultiHeadAttention.attn_scores {K : Type} [Field K] [DecidableEq K]
    {d_k d_model n_heads max_len : ℕ}
    (m : MultiHeadAttention K d_k d_model n_heads max_len) (P : Prims K)
    {N Tq Tk : ℕ}
    (q : Fin N → Fin Tq → Fin d_model → Option K)
    (k : Fin N → Fin Tk → Fin d_model → Option K) :
    Fin N → Fin n_heads → Fin Tq → Fin Tk → Option K :=
  fun n h i j =>
    ndiv (nsum fun d =>
            nmul (m.query.app (q n i) (headIdx h d)) (m.key.app (k n j) (headIdx h d)))
         (some (P.sqrt (d_k : K)))

/-- Scores after the two masked_fill calls: positions whose key-side padding
mask entry equals 0 become -inf, and, when the module is causal, positions
where the sliced causal mask is 0 (key index beyond query index) become
-inf.  The causal buffer is sliced to the current (T_output, T_input) shape,
which requires both lengths to be at most max_len. -/
def MultiHeadAttention.masked_scores {K : Type} [Field K] [DecidableEq K]
    {d_k d_model n_heads max_len : ℕ}
    (m : MultiHeadAttention K d_k d_model n_heads max_len) (P : Prims K)
    {N Tq Tk : ℕ} (hq : Tq ≤ max_len) (hk : Tk ≤ max_len)
    (q : Fin N → Fin Tq → Fin d_model → Option K)
    (k : Fin N → Fin Tk → Fin d_model → Option K)
    (pad_mask : Option (Fin N → Fin Tk → K)) :
    Fin N → Fin n_heads → Fin Tq → Fin Tk → FScore K :=
  fun n h i j =>
    let s0 : FScore K := FScore.val (m.attn_scores P q k n h i j)
    let s1 : FScore K :=
      match pad_mask with
      | none => s0
      | some pm => if pm n j = 0 then FScore.ninf else s0
    if m.causal then
      if MultiHeadAttention.causal_mask K max_len (Fin.castLE hq i) (Fin.castLE hk j) = 0
      then FScore.ninf else s1
    else s1

/-- attn_weights = F.softmax(attn_scores, dim=-1): softmax over the key
axis of the masked scores. -/
def MultiHeadAttention.attn_weights {K : Type} [Field K] [DecidableEq K]
    {d_k d_model n_heads max_len : ℕ}
    (m : MultiHeadAttention K d_k d_model n_heads max_len) (P : Prims K)
    {N Tq Tk : ℕ} (hq : Tq ≤ max_len) (hk : Tk ≤ max_len)
    (q : Fin N → Fin Tq → Fin d_model → Option K)
    (k : Fin N → Fin Tk → Fin d_model → Option K)
    (pad_mask : Option (Fin N → Fin Tk → K)) :
    Fin N → Fin n_heads → Fin Tq → Fin Tk → Option K :=
  fun n h i => softmaxRow P.exp (m.masked_scores P hq hk q k pad_mask n h i)

/-- MultiHeadAttention.forward: attention-weighted values A = attn_weights @ v
per head, heads concatenated back to width d_k * n_heads, then the final
linear projection fc. -/
def MultiHeadAttention.forward {K : Type} [Field K] [DecidableEq K]
    {d_k d_model n_heads max_len : ℕ}
    (m : MultiHeadAttention K d_k d_model n_heads max_len) (P : Prims K)
    {N Tq Tk : ℕ} (hq : Tq ≤ max_len) (hk : Tk ≤ max_len)
    (q : Fin N → Fin Tq → Fin d_model → Option K)
    (k : Fin N → Fin Tk → Fin d_model → Option K)
    (v : Fin N → Fin Tk → Fin d_model → Option K)
    (pad_mask : Option (Fin N → Fin Tk → K)) :
    Fin N → Fin Tq → Fin d_model → Option K :=
  let w := m.attn_weights P hq hk q k pad_mask
  let A : Fin N → Fin n_heads → Fin Tq → Fin d_k → Option K :=
    fun n h i d => nsum fun j => nmul (w n h i j) (m.value.app (v n j) (headIdx h d))
  fun n i => m.fc.app (fun e => A n (headOf e) i (dimOf e))

/-! ### LayerNorm, feed-forward, dropout -/

/-- nn.Dropout in evaluation mode: the identity.  (In training mode dropout
is a random mask; every verified statement here is about the deterministic
evaluation-mode forward pass.) -/
def dropoutEval {α : Type} (x : α) : α := x

/-- An nn.LayerNorm(d) module: learned scale and shift, and the eps
stabiliser (10^-5 by default in torch). -/
structure LayerNorm (K : Type) (d : ℕ) where
  weight : Fin d → K
  bias : Fin d → K
  eps : K

/-- LayerNorm applied to one feature vector:
(x - mean) / sqrt(biased variance + eps) * weight + bias. -/
def LayerNorm.app {K : Type} [Field K] [DecidableEq K] {d : ℕ}
    (ln : LayerNorm K d) (P : Prims K) (x : Fin d → Option K) : Fin d → Option K :=
  let mean := ndiv (nsum x) (some (d : K))
  let varb := ndiv (nsum fun i => nmul (nsub (x i) mean) (nsub (x i) mean)) (some (d : K))
  fun i =>
    nadd (nmul (ndiv (nsub (x i) mean) (Option.map P.sqrt (nadd varb (some ln.eps))))
               (some (ln.weight i)))
         (some (ln.bias i))

/-- The position-wise feed-forward sublayer self.ann:
nn.Sequential(Linear(d, 4d), GELU, Linear(4d, d), Dropout). -/
structure FeedForward (K : Type) (d : ℕ) where
  linear1 : Linear K d (d * 4)
  linear2 : Linear K (d * 4) d

/-- Application of the feed-forward sublayer (dropout is the identity in
evaluation mode). -/
def FeedForward.app {K : Type} [Field K] [DecidableEq K] {d : ℕ}
    (f : FeedForward K d) (P : Prims K) (x : Fin d → Option K) : Fin d → Option K :=
  dropoutEval (f.linear2.app fun j => Option.map P.gelu (f.linear1.app x j))

/-! ### Encoder and decoder blocks (cells 2 and 3 of Encoder_Decoder.ipynb;
TransformerBlock of Decoder.ipynb is EncoderBlock with a causal mha) -/

/-- One residual sublayer: Norm(x + f(x)), where f may look at the whole
tensor (attention) and the normalisation acts per position. -/
def sublayerT {K : Type} [Field K] [DecidableEq K] {d_model N T : ℕ}
    (P : Prims K) (ln : LayerNorm K d_model)
    (f : (Fin N → Fin T → Fin d_model → Option K) → Fin N → Fin T → Fin d_model → Option K)
    (x : Fin N → Fin T → Fin d_model → Option K) :
    Fin N → Fin T → Fin d_model → Option K :=
  fun n t => ln.app P (fun i => nadd (x n t i) (f x n t i))

/-- The EncoderBlock module. -/
structure EncoderBlock (K : Type) (d_k d_model n_heads max_len : ℕ) where
  ln1 : LayerNorm K d_model
  ln2 : LayerNorm K d_model
  mha : MultiHeadAttention K d_k d_model n_heads max_len
  ann : FeedForward K d_model

/-- EncoderBlock.forward:
x = ln1(x + mha(x, x, x, pad_mask)); x = ln2(x + ann(x)); x = dropout(x). -/
def EncoderBlock.forward {K : Type} [Field K] [DecidableEq K]
    {d_k d_model n_heads max_len : ℕ}
    (b : EncoderBlock K d_k d_model n_heads max_len) (P : Prims K)
    {N T : ℕ} (hT : T ≤ max_len)
    (x : Fin N → Fin T → Fin d_model → Option K)
    (pad_mask : Option (Fin N → Fin T → K)) :
    Fin N → Fin T → Fin d_model → Option K :=
  let x1 := sublayerT P b.ln1 (fun y => b.mha.forward P hT hT y y y pad_mask) x
  let x2 := sublayerT P b.ln2 (fun y n t => b.ann.app P (y n t)) x1
  dropoutEval x2

/-- The DecoderBlock module. -/
structure DecoderBlock (K : Type) (d_k d_model n_heads max_len : ℕ) where
  ln1 : LayerNorm K d_model
  ln2 : LayerNorm K d_model
  ln3 : LayerNorm K d_model
  mha1 : MultiHeadAttention K d_k d_model n_heads max_len
  mha2 : MultiHeadAttention K d_k d_model n_heads max_len
  ann : FeedForward K d_model

/-- DecoderBlock.__init__: mha1 is built with causal=True, mha2 (the
cross-attention) with causal=False; the learned pieces are parameters. -/
def DecoderBlock.init {K : Type} {d_k d_model n_heads max_len : ℕ}
    (ln1 ln2 ln3 : LayerNorm K d_model)
    (k1 q1 v1 : Linear K d_model (d_k * n_heads)) (fc1 : Linear K (d_k * n_heads) d_model)
    (k2 q2 v2 : Linear K d_model (d_k * n_heads)) (fc2 : Linear K (d_k * n_heads) d_model)
    (ann : FeedForward K d_model) : DecoderBlock K d_k d_model n_heads max_len :=
  { ln1 := ln1, ln2 := ln2, ln3 := ln3,
    mha1 := ⟨k1, q1, v1, fc1, true⟩,
    mha2 := ⟨k2, q2, v2, fc2, false⟩,
    ann := ann }

/-- DecoderBlock.forward:
x = ln1(dec_input + mha1(dec_input, dec_input, dec_input, dec_mask));
x = ln2(x + mha2(x, enc_output, enc_output, enc_mask));
x = ln3(x + ann(x)); x = dropout(x). -/
def DecoderBlock.forward {K : Type} [Field K] [DecidableEq K]
    {d_k d_model n_heads max_len : ℕ}
    (b : DecoderBlock K d_k d_model n_heads max_len) (P : Prims K)
    {N Tdec Tenc : ℕ} (hTd : Tdec ≤ max_len) (hTe : Tenc ≤ max_len)
    (enc_output : Fin N → Fin Tenc → Fin d_model → Option K)
    (dec_input : Fin N → Fin Tdec → Fin d_model → Option K)
    (enc_mask : Option (Fin N → Fin Tenc → K))
    (dec_mask : Option (Fin N → Fin Tdec → K)) :
    Fin N → Fin Tdec → Fin d_model → Option K :=
  let x1 := sublayerT P b.ln1 (fun y => b.mha1.forward P hTd hTd y y y dec_mask) dec_input
  let x2 := sublayerT P b.ln2 (fun y => b.mha2.forward P hTd hTe y enc_output enc_output enc_mask) x1
  let x3 := sublayerT P b.ln3 (fun y n t => b.ann.app P (y n t)) x2
  dropoutEval x3

/-! ### PositionalEncoding (cell-4 of Encoder_Decoder.ipynb, identical in
Decoder.ipynb) -/

/-- div_term of PositionalEncoding.__init__:
torch.exp(exp_term * (-math.log(10000.0) / d_model)) at index t, where
exp_term = torch.arange(0, d_model, 2) has value 2t at index t. -/
def PositionalEncoding.div_term {K : Type} [Field K] (P : Prims K)
    (d_model : ℕ) (t : ℕ) : K :=
  P.exp (((2 * t : ℕ) : K) * (-(P.log ((10000 : K))) / (d_model : K)))

/-- Whether assigning a source of width srcW into a strided slice of width
targetW succeeds under torch broadcasting for setitem: the widths must agree,
or the source width must be 1 (a singleton dimension broadcasts to any target
size, including 0). -/
def sliceAssignOK (targetW srcW : ℕ) : Bool :=
  targetW == srcW || srcW == 1

/-- PositionalEncoding.__init__, building the pe buffer of shape
(1, max_len, d_model) (the leading broadcast dimension is dropped here).
The sine source sin(position * div_term) has width (d_model + 1) / 2
(the length of arange(0, d_model, 2)), assigned into the (d_model + 1) / 2
even columns pe[0, :, 0::2]; the cosine source has the same width, assigned
into the d_model / 2 odd columns pe[0, :, 1::2].  Each assignment succeeds
exactly when torch broadcasting accepts it (sliceAssignOK); otherwise
__init__ raises a shape-mismatch RuntimeError, modelled as Except.error. -/
def PositionalEncoding.init {K : Type} [Field K] (P : Prims K)
    (d_model max_len : ℕ) : Except String (Fin max_len → Fin d_model → K) :=
  if sliceAssignOK ((d_model + 1) / 2) ((d_model + 1) / 2) then
    if sliceAssignOK (d_model / 2) ((d_model + 1) / 2) then
      Except.ok (fun pos i =>
        if (i : ℕ) % 2 = 0 then
          P.sin ((pos : K) * PositionalEncoding.div_term P d_model ((i : ℕ) / 2))
        else
          P.cos ((pos : K) * PositionalEncoding.div_term P d_model ((i : ℕ) / 2)))
    else Except.error "shape mismatch in positional encoding cosine assignment"
  else Except.error "shape mismatch in positional encoding sine assignment"

/-- PositionalEncoding.forward: x + pe[:, :T, :] broadcast over the batch,
then dropout (identity in evaluation mode).  The slice requires T ≤ max_len. -/
def PositionalEncoding.forward {K : Type} [Field K]
    {d_model max_len : ℕ} (pe : Fin max_len → Fin d_model → K)
    {N T : ℕ} (hT : T ≤ max_len)
    (x : Fin N → Fin T → Fin d_model → Option K) :
    Fin N → Fin T → Fin d_model → Option K :=
  dropoutEval (fun n t i => nadd (x n t i) (some (pe (Fin.castLE hT t) i)))

/-! ### Embedding lookup, Encoder, Decoder, Transformer -/

/-- nn.Embedding applied to a batch of token ids.  Models the documented
torch behaviour: an id outside [0, num_embeddings) raises
IndexError("index out of range in self"); in-range ids select rows of the
embedding table.  Ids are natural numbers as produced by a tokenizer. -/
def embedAll {K : Type} {vocab_size d_model N T : ℕ}
    (emb : Fin vocab_size → Fin d_model → K)
    (ids : Fin N → Fin T → ℕ) :
    Except String (Fin N → Fin T → Fin d_model → Option K) :=
  if h : ∀ n t, ids n t < vocab_size then
    Except.ok (fun n t i => some (emb ⟨ids n t, h n t⟩ i))
  else Except.error "index out of range in self"

/-- The Encoder stack (cell-5 of Encoder_Decoder.ipynb): embedding,
positional encoding, n_layers encoder blocks, final LayerNorm. -/
structure Encoder (K : Type) (vocab_size max_len d_k d_model n_heads n_layers : ℕ) where
  embedding : Fin vocab_size → Fin d_model → K
  pe : Fin max_len → Fin d_model → K
  blocks : Fin n_layers → EncoderBlock K d_k d_model n_heads max_len
  ln : LayerNorm K d_model

/-- Encoder.forward: embed, add positional encoding, apply the blocks in
order, final LayerNorm. -/
def Encoder.forward {K : Type} [Field K] [DecidableEq K]
    {vocab_size max_len d_k d_model n_heads n_layers : ℕ}
    (e : Encoder K vocab_size max_len d_k d_model n_heads n_layers) (P : Prims K)
    {N T : ℕ} (hT : T ≤ max_len)
    (x : Fin N → Fin T → ℕ)
    (pad_mask : Option (Fin N → Fin T → K)) :
    Except String (Fin N → Fin T → Fin d_model → Option K) := do
  let emb ← embedAll e.embedding x
  let h0 := PositionalEncoding.forward e.pe hT emb
  let hb := (List.finRange n_layers).foldl
    (fun acc l => (e.blocks l).forward P hT acc pad_mask) h0
  pure (fun n t => e.ln.app P (hb n t))

/-- The Decoder stack (cell-6 of Encoder_Decoder.ipynb): embedding,
positional encoding, n_layers decoder blocks, final LayerNorm, and the
projection to vocabulary logits. -/
structure Decoder (K : Type) (vocab_size max_len d_k d_model n_heads n_layers : ℕ) where
  embedding : Fin vocab_size → Fin d_model → K
  pe : Fin max_len → Fin d_model → K
  blocks : Fin n_layers → DecoderBlock K d_k d_model n_heads max_len
  ln : LayerNorm K d_model
  fc : Linear K d_model vocab_size

/-- Decoder.forward (seq2seq mode): embed the decoder input, add positional
encoding, apply the decoder blocks (each cross-attending to enc_output),
final LayerNorm, project to logits. -/
def Decoder.forward {K : Type} [Field K] [DecidableEq K]
    {vocab_size max_len d_k d_model n_heads n_layers : ℕ}
    (dec : Decoder K vocab_size max_len d_k d_model n_heads n_layers) (P : Prims K)
    {N Tenc Tdec : ℕ} (hTe : Tenc ≤ max_len) (hTd : Tdec ≤ max_len)
    (enc_output : Fin N → Fin Tenc → Fin d_model → Option K)
    (dec_input : Fin N → Fin Tdec → ℕ)
    (enc_mask : Option (Fin N → Fin Tenc → K))
    (dec_mask : Option (Fin N → Fin Tdec → K)) :
    Except String (Fin N → Fin Tdec → Fin vocab_size → Option K) := do
  let emb ← embedAll dec.embedding dec_input
  let h0 := PositionalEncoding.forward dec.pe hTd emb
  let hb := (List.finRange n_layers).foldl
    (fun acc l => (dec.blocks l).forward P hTd hTe enc_output acc enc_mask dec_mask) h0
  pure (fun n t => dec.fc.app (dec.ln.app P (hb n t)))

/-- The Transformer wrapper (cell-7 of Encoder_Decoder.ipynb). -/
structure Transformer (K : Type) (enc_vocab dec_vocab max_len d_k d_model n_heads n_layers : ℕ) where
  encoder : Encoder K enc_vocab max_len d_k d_model n_heads n_layers
  decoder : Decoder K dec_vocab max_len d_k d_model n_heads n_layers

/-- Transformer.forward: enc_output = encoder(enc_input, enc_mask);
decoder(enc_output, dec_input, enc_mask, dec_mask). -/
def Transformer.forward {K : Type} [Field K] [DecidableEq K]
    {enc_vocab dec_vocab max_len d_k d_model n_heads n_layers : ℕ}
    (t : Transformer K enc_vocab dec_vocab max_len d_k d_model n_heads n_layers)
    (P : Prims K) {N Tenc Tdec : ℕ} (hTe : Tenc ≤ max_len) (hTd : Tdec ≤ max_len)
    (enc_input : Fin N → Fin Tenc → ℕ)
    (dec_input : Fin N → Fin Tdec → ℕ)
    (enc_mask : Option (Fin N → Fin Tenc → K))
    (dec_mask : Option (Fin N → Fin Tdec → K)) :
    Except String (Fin N → Fin Tdec → Fin dec_vocab → Option K) := do
  let enc_output ← t.encoder.forward P hTe enc_input enc_mask
  t.decoder.forward P hTe hTd enc_output dec_input enc_mask dec_mask

/-! ### The autoregressive generation loop (translate, cell-59 of
Encoder_Decoder.ipynb; the prompt-generation loop of Decoder.ipynb is the
same loop shape with its own constants) -/

/-- torch.argmax over the vocabulary axis: the index of the first maximal
entry (later indices replace the current best only on a strict increase). -/
def argmaxIdx {K : Type} [LinearOrder K] {V : ℕ} (hV : 0 < V)
    (f : Fin V → K) : Fin V :=
  (List.finRange V).foldl (fun best j => if f best < f j then j else best) ⟨0, hV⟩

/-- dec_output[:, -1, :]: the logits at the last position of the (batch-1)
decoder output, presented as a list of per-position logit vectors. -/
def lastLogits {K : Type} [Zero K] {V : ℕ} (l : List (Fin V → K)) : Fin V → K :=
  l.getLastD (fun _ => 0)

/-- The loop state of translate: the current decoder-input id sequence and
its padding mask.  The encoder output and encoder mask are fixed outside the
loop and are closed over by the decoder function, so they do not appear in
the state. -/
structure GenState where
  dec_input_ids : List ℕ
  dec_attn_mask : List ℕ

/-- prediction_id = torch.argmax(dec_output[:, -1, :], axis=-1), where
dec_output = decoder(enc_output, dec_input_ids, enc_mask, dec_attn_mask):
the decoder function dF abstracts the full decoder stack applied to the
entire current sequence with the fixed encoder inputs. -/
def predToken {K : Type} [LinearOrder K] [Zero K] {V : ℕ} (hV : 0 < V)
    (dF : List ℕ → List ℕ → List (Fin V → K)) (s : GenState) : ℕ :=
  (argmaxIdx hV (lastLogits (dF s.dec_input_ids s.dec_attn_mask)) : Fin V).val

/-- One body of the generation loop: run the full decoder on the whole
current sequence, append the arg-max token, and recreate the mask as
torch.ones_like of the new sequence. -/
def genStep {K : Type} [LinearOrder K] [Zero K] {V : ℕ} (hV : 0 < V)
    (dF : List ℕ → List ℕ → List (Fin V → K)) (s : GenState) : GenState :=
  { dec_input_ids := s.dec_input_ids ++ [predToken hV dF s],
    dec_attn_mask := List.replicate (s.dec_input_ids.length + 1) 1 }

/-- The for-loop of translate: at most the given number of iterations, each
appending one token, breaking right after an iteration whose prediction
equals endId. -/
def translateLoop {K : Type} [LinearOrder K] [Zero K] {V : ℕ} (hV : 0 < V)
    (dF : List ℕ → List ℕ → List (Fin V → K)) (endId : ℕ) :
    ℕ → GenState → GenState
  | 0, s => s
  | steps + 1, s =>
    if predToken hV dF s = endId then genStep hV dF s
    else translateLoop hV dF endId steps (genStep hV dF s)

/-- The initial loop state of translate:
dec_input_ids = [[65001]], dec_attn_mask = torch.ones_like(dec_input_ids). -/
def translateInit : GenState :=
  { dec_input_ids := [65001], dec_attn_mask := [1] }

/-- The id sequence held by translate when its loop exits: 32 loop steps
from the length-1 start sequence, stopping early on the end id 0.
(translate then detokenizes dec_input_ids[0, 1:].) -/
def translateIds {K : Type} [LinearOrder K] [Zero K] {V : ℕ} (hV : 0 < V)
    (dF : List ℕ → List ℕ → List (Fin V → K)) : List ℕ :=
  (translateLoop hV dF 0 32 translateInit).dec_input_ids

/-! ### Concrete instances over ℚ used to witness the theorems -/

/-- Trivial primitives over ℚ: exp is the constant 1 (positive), sqrt the
constant 1 (nonzero), the remaining fields the identity. -/
def qPrims : Prims ℚ :=
  ⟨fun _ => 1, fun _ => 1, id, id, id, id⟩

/-- An all-zero linear layer. -/
def zeroLinear (inF outF : ℕ) : Linear ℚ inF outF :=
  ⟨fun _ _ => 0, fun _ => 0⟩

/-- A trivial LayerNorm over ℚ. -/
def qLN (d : ℕ) : LayerNorm ℚ d :=
  ⟨fun _ => 1, fun _ => 0, 1⟩

/-- A trivial feed-forward sublayer over ℚ. -/
def qFF (d : ℕ) : FeedForward ℚ d :=
  ⟨zeroLinear d (d * 4), zeroLinear (d * 4) d⟩

/-- A tiny non-causal attention module: d_k = 1, d_model = 1, one head,
max_len = 1, all-zero weights. -/
def mhaTiny : MultiHeadAttention ℚ 1 1 1 1 :=
  ⟨zeroLinear 1 1, zeroLinear 1 1, zeroLinear 1 1, zeroLinear 1 1, false⟩

/-- A tiny causal attention module with max_len = 2 and all-zero weights. -/
def mhaCausal : MultiHeadAttention ℚ 1 1 1 2 :=
  ⟨zeroLinear 1 1, zeroLinear 1 1, zeroLinear 1 1, zeroLinear 1 1, true⟩

/-- A tiny causal attention module with max_len = 1 and all-zero weights. -/
def mhaTinyCausal : MultiHeadAttention ℚ 1 1 1 1 :=
  ⟨zeroLinear 1 1, zeroLinear 1 1, zeroLinear 1 1, zeroLinear 1 1, true⟩

/-- A tiny encoder: vocab 1, max_len 1, no blocks. -/
def encTiny : Encoder ℚ 1 1 1 1 1 0 :=
  ⟨fun _ _ => 0, fun _ _ => 0, fun l => l.elim0, qLN 1⟩

/-- A tiny decoder: vocab 1, max_len 1, no blocks. -/
def decTiny : Decoder ℚ 1 1 1 1 1 0 :=
  ⟨fun _ _ => 0, fun _ _ => 0, fun l => l.elim0, qLN 1, zeroLinear 1 1⟩

/-- The tiny transformer made of encTiny and decTiny. -/
def tfTiny : Transformer ℚ 1 1 1 1 1 1 0 :=
  ⟨encTiny, decTiny⟩

/-- A constant decoder function for the generation loop: vocabulary of size
one, so the arg-max token is always 0. -/
def dfConst : List ℕ → List ℕ → List (Fin 1 → ℚ) :=
  fun _ _ => [fun _ => 0]

/-- An all-zero (1,1,1) input tensor over ℚ. -/
def xZero111 : Fin 1 → Fin 1 → Fin 1 → ℚ := fun _ _ _ => 0

/-- An all-zero (1,2,1) input tensor over ℚ. -/
def xZero121 : Fin 1 → Fin 2 → Fin 1 → ℚ := fun _ _ _ => 0

/-- An all-ones (1,1) padding mask over ℚ. -/
def maskOnes11 : Fin 1 → Fin 1 → ℚ := fun _ _ => 1

/-- An all-zero (1,1) padding mask over ℚ (everything padded). -/
def maskZero11 : Fin 1 → Fin 1 → ℚ := fun _ _ => 0

/-- An all-zero (1,2) padding mask over ℚ (everything padded). -/
def maskZero12 : Fin 1 → Fin 2 → ℚ := fun _ _ => 0

/-! ### Basic lemmas about the NaN-propagating arithmetic -/

/-- A sum all of whose terms are defined is defined, with the evident value. -/
theorem nsum_eq_some {K : Type} [AddCommMonoid K] : ∀ {n : ℕ}
    (f : Fin n → Option K) (g : Fin n → K), (∀ j, f j = some (g j)) →
    nsum f = some (∑ j, g j) := by
  intro n
  induction n with
  | zero => intro f g h; simp [nsum]
  | succ k ih =>
    intro f g h
    have h1 : nsum f = nadd (f 0) (nsum fun i => f i.succ) := rfl
    rw [h1, h 0, ih (fun i => f i.succ) (fun i => g i.succ) (fun i => h i.succ),
        Fin.sum_univ_succ]
    rfl

/-- A sum with an undefined term is undefined. -/
theorem nsum_eq_none {K : Type} [AddCommMonoid K] : ∀ {n : ℕ}
    (f : Fin n → Option K) (j0 : Fin n), f j0 = none → nsum f = none := by
  intro n
  induction n with
  | zero => intro f j0 _; exact j0.elim0
  | succ k ih =>
    intro f j0 h
    have h1 : nsum f = nadd (f 0) (nsum fun i => f i.succ) := rfl
    rw [h1]
    rcases Fin.eq_zero_or_eq_succ j0 with rfl | ⟨i, rfl⟩
    · rw [h]
      cases nsum fun i => f i.succ <;> rfl
    · rw [ih (fun i2 => f i2.succ) i h]
      cases f 0 <;> rfl

/-- Existence form of nsum_eq_some. -/
theorem nsum_isSome_of {K : Type} [AddCommMonoid K] {n : ℕ}
    (f : Fin n → Option K) (h : ∀ j, ∃ a, f j = some a) : ∃ c, nsum f = some c := by
  choose g hg using h
  exact ⟨∑ j, g j, nsum_eq_some f g hg⟩

/-- NaN is absorbing on the left of multiplication. -/
theorem nmul_none_left {K : Type} [Mul K] (x : Option K) : nmul none x = none := by
  cases x <;> rfl

/-- NaN is absorbing on the right of multiplication. -/
theorem nmul_none_right {K : Type} [Mul K] (x : Option K) : nmul x none = none := by
  cases x <;> rfl

/-- NaN is absorbing on the left of addition. -/
theorem nadd_none_left {K : Type} [Add K] (x : Option K) : nadd none x = none := by
  cases x <;> rfl

/-- An nn.Linear layer on a fully defined input vector computes the affine
map and is defined. -/
theorem Linear.app_pure {K : Type} [Field K] [DecidableEq K] {inF outF : ℕ}
    (l : Linear K inF outF) (x : Fin inF → K) (r : Fin outF) :
    l.app (fun c => some (x c)) r = some ((∑ c, l.weight r c * x c) + l.bias r) := by
  unfold Linear.app
  have h1 : (nsum fun c => nmul (some (l.weight r c)) ((fun c => some (x c)) c))
      = some (∑ c, l.weight r c * x c) :=
    nsum_eq_some _ (fun c => l.weight r c * x c) (fun c => rfl)
  rw [h1]
  rfl

/-- Core property of the masked softmax row: if every entry is either -inf
or a finite value, and at least one entry is not -inf, then the row is a
probability distribution: it sums to one, and every -inf entry gets weight
exactly zero. -/
theorem softmaxRow_spec {K : Type} [LinearOrderedField K] [DecidableEq K] {n : ℕ}
    (E : K → K) (hE : ∀ x, 0 < E x) (s : Fin n → FScore K)
    (hfin : ∀ j, s j ≠ FScore.ninf → ∃ r, s j = FScore.val (some r))
    (hrow : ∃ j, s j ≠ FScore.ninf) :
    nsum (fun j => softmaxRow E s j) = some 1
    ∧ ∀ j, s j = FScore.ninf → softmaxRow E s j = some 0 := by
  have hg : ∀ j, ∃ c, mexp E (s j) = some c ∧ 0 ≤ c := by
    intro j
    by_cases hj : s j = FScore.ninf
    · exact ⟨0, by rw [hj]; rfl, le_refl 0⟩
    · obtain ⟨r, hr⟩ := hfin j hj
      exact ⟨E r, by rw [hr]; rfl, le_of_lt (hE r)⟩
  choose g hgs hgnn using hg
  have hS : nsum (fun i => mexp E (s i)) = some (∑ i, g i) := nsum_eq_some _ _ hgs
  obtain ⟨j0, hj0⟩ := hrow
  obtain ⟨r0, hr0⟩ := hfin j0 hj0
  have hgj0 : 0 < g j0 := by
    have h1 : mexp E (s j0) = some (E r0) := by rw [hr0]; rfl
    have h2 : E r0 = g j0 := by
      have h3 := hgs j0
      rw [h1] at h3
      exact Option.some_inj.mp h3
    rw [← h2]
    exact hE r0
  have hSpos : 0 < ∑ i, g i := by
    calc (0 : K) < g j0 := hgj0
      _ ≤ ∑ i, g i := Finset.single_le_sum (fun i _ => hgnn i) (Finset.mem_univ j0)
  have hSne : (∑ i, g i) ≠ 0 := ne_of_gt hSpos
  have hw : ∀ j, softmaxRow E s j = some (g j / ∑ i, g i) := by
    intro j
    unfold softmaxRow
    rw [hgs j, hS]
    simp [ndiv, hSne]
  refine ⟨?_, ?_⟩
  · rw [nsum_eq_some _ (fun j => g j / ∑ i, g i) hw, ← Finset.sum_div, div_self hSne]
  · intro j hj
    have hz : g j = 0 := by
      have h3 := hgs j
      rw [hj] at h3
      exact (Option.some_inj.mp h3).symm
    rw [hw j, hz, zero_div]

/-! ### Lemmas about the attention stages on fully defined inputs -/

/-- On fully defined (non-NaN) inputs, and with a nonzero sqrt(d_k), every
raw attention score is a defined value. -/
theorem attn_scores_pure {K : Type} [LinearOrderedField K] [DecidableEq K]
    {d_k d_model n_heads max_len : ℕ}
    (m : MultiHeadAttention K d_k d_model n_heads max_len) (P : Prims K)
    {N Tq Tk : ℕ}
    (q : Fin N → Fin Tq → Fin d_model → K)
    (k : Fin N → Fin Tk → Fin d_model → K)
    (hsq : P.sqrt (d_k : K) ≠ 0)
    (n : Fin N) (h : Fin n_heads) (i : Fin Tq) (j : Fin Tk) :
    ∃ r, m.attn_scores P (fun a b c => some (q a b c)) (fun a b c => some (k a b c)) n h i j
      = some r := by
  obtain ⟨c, hc⟩ : ∃ c, (nsum fun d =>
      nmul (m.query.app (fun c2 => (fun a b c3 => some (q a b c3)) n i c2) (headIdx h d))
           (m.key.app (fun c2 => (fun a b c3 => some (k a b c3)) n j c2) (headIdx h d)))
      = some c := by
    apply nsum_isSome_of
    intro d
    rw [Linear.app_pure m.query (fun c2 => q n i c2) (headIdx h d),
        Linear.app_pure m.key (fun c2 => k n j c2) (headIdx h d)]
    exact ⟨_, rfl⟩
  refine ⟨c / P.sqrt (d_k : K), ?_⟩
  unfold MultiHeadAttention.attn_scores
  rw [hc]
  simp [ndiv, hsq]


/-- On fully defined inputs every masked score is either -inf or a defined
finite value (never NaN). -/
theorem masked_scores_cases {K : Type} [LinearOrderedField K] [DecidableEq K]
    {d_k d_model n_heads max_len : ℕ}
    (m : MultiHeadAttention K d_k d_model n_heads max_len) (P : Prims K)
    {N Tq Tk : ℕ} (hq : Tq ≤ max_len) (hk : Tk ≤ max_len)
    (q : Fin N → Fin Tq → Fin d_model → K)
    (k : Fin N → Fin Tk → Fin d_model → K)
    (pad_mask : Option (Fin N → Fin Tk → K))
    (hsq : P.sqrt (d_k : K) ≠ 0)
    (n : Fin N) (h : Fin n_heads) (i : Fin Tq) (j : Fin Tk) :
    m.masked_scores P hq hk (fun a b c => some (q a b c)) (fun a b c => some (k a b c))
        pad_mask n h i j = FScore.ninf
    ∨ ∃ r, m.masked_scores P hq hk (fun a b c => some (q a b c)) (fun a b c => some (k a b c))
        pad_mask n h i j = FScore.val (some r) := by
  obtain ⟨r, hr⟩ := attn_scores_pure m P q k hsq n h i j
  unfold MultiHeadAttention.masked_scores
  cases pad_mask with
  | none =>
    cases hcau : m.causal with
    | false => exact Or.inr ⟨r, by simp [hcau, hr]⟩
    | true =>
      by_cases hcm : MultiHeadAttention.causal_mask K max_len (Fin.castLE hq i) (Fin.castLE hk j) = 0
      · exact Or.inl (by simp [hcau, hcm])
      · exact Or.inr ⟨r, by simp [hcau, hcm, hr]⟩
  | some pm =>
    by_cases hpm : pm n j = 0
    · cases hcau : m.causal with
      | false => exact Or.inl (by simp [hcau, hpm])
      | true =>
        by_cases hcm : MultiHeadAttention.causal_mask K max_len (Fin.castLE hq i) (Fin.castLE hk j) = 0
        · exact Or.inl (by simp [hcau, hpm, hcm])
        · exact Or.inl (by simp [hcau, hpm, hcm])
    · cases hcau : m.causal with
      | false => exact Or.inr ⟨r, by simp [hcau, hpm, hr]⟩
      | true =>
        by_cases hcm : MultiHeadAttention.causal_mask K max_len (Fin.castLE hq i) (Fin.castLE hk j) = 0
        · exact Or.inl (by simp [hcau, hpm, hcm])
        · exact Or.inr ⟨r, by simp [hcau, hpm, hcm, hr]⟩

/-- A key position whose padding-mask entry is 0 has masked score -inf. -/
theorem masked_scores_pad_ninf {K : Type} [LinearOrderedField K] [DecidableEq K]
    {d_k d_model n_heads max_len : ℕ}
    (m : MultiHeadAttention K d_k d_model n_heads max_len) (P : Prims K)
    {N Tq Tk : ℕ} (hq : Tq ≤ max_len) (hk : Tk ≤ max_len)
    (q : Fin N → Fin Tq → Fin d_model → Option K)
    (k : Fin N → Fin Tk → Fin d_model → Option K)
    (pm : Fin N → Fin Tk → K)
    (n : Fin N) (h : Fin n_heads) (i : Fin Tq) (j : Fin Tk)
    (hpm : pm n j = 0) :
    m.masked_scores P hq hk q k (some pm) n h i j = FScore.ninf := by
  unfold MultiHeadAttention.masked_scores
  cases hcau : m.causal with
  | false => simp [hcau, hpm]
  | true =>
    by_cases hcm : MultiHeadAttention.causal_mask K max_len (Fin.castLE hq i) (Fin.castLE hk j) = 0
    · simp [hcau, hpm, hcm]
    · simp [hcau, hpm, hcm]

/-- In a causal module, a key position strictly beyond the query position has
masked score -inf (the sliced causal-mask entry is 0 there). -/
theorem masked_scores_causal_ninf {K : Type} [LinearOrderedField K] [DecidableEq K]
    {d_k d_model n_heads max_len : ℕ}
    (m : MultiHeadAttention K d_k d_model n_heads max_len) (P : Prims K)
    {N Tq Tk : ℕ} (hq : Tq ≤ max_len) (hk : Tk ≤ max_len)
    (q : Fin N → Fin Tq → Fin d_model → Option K)
    (k : Fin N → Fin Tk → Fin d_model → Option K)
    (pad_mask : Option (Fin N → Fin Tk → K))
    (hc : m.causal = true)
    (n : Fin N) (h : Fin n_heads) (i : Fin Tq) (j : Fin Tk)
    (hij : (i : ℕ) < (j : ℕ)) :
    m.masked_scores P hq hk q k pad_mask n h i j = FScore.ninf := by
  have hcm : MultiHeadAttention.causal_mask K max_len (Fin.castLE hq i) (Fin.castLE hk j) = 0 := by
    unfold MultiHeadAttention.causal_mask tril ones
    rw [if_neg]
    simp only [Fin.coe_castLE]
    exact Nat.not_le.mpr hij
  unfold MultiHeadAttention.masked_scores
  cases pad_mask with
  | none => simp [hc, hcm]
  | some pm =>
    by_cases hpm : pm n j = 0
    · simp [hc, hpm, hcm]
    · simp [hc, hpm, hcm]

/-- C1: for every forward evaluation of the attention engine (any batch
size, head count, query length, key length, any padding mask and causal
setting, on defined inputs), at every query position whose score row is not
entirely masked, the attention weights produced by the softmax over the key
axis sum to 1, the weight at every key position whose padding-mask entry is
0 is exactly 0, and, when causal, the weight at every key position strictly
beyond the query position is exactly 0, for every batch element and head. -/
theorem attention_rows_sum_to_one_and_masked_weights_zero
    {K : Type} [LinearOrderedField K] [DecidableEq K]
    {d_k d_model n_heads max_len N Tq Tk : ℕ}
    (m : MultiHeadAttention K d_k d_model n_heads max_len) (P : Prims K)
    (hq : Tq ≤ max_len) (hk : Tk ≤ max_len)
    (q : Fin N → Fin Tq → Fin d_model → K)
    (k : Fin N → Fin Tk → Fin d_model → K)
    (pm : Fin N → Fin Tk → K)
    (hE : ∀ x, 0 < P.exp x) (hsq : P.sqrt (d_k : K) ≠ 0)
    (n : Fin N) (h : Fin n_heads) (i : Fin Tq)
    (hrow : ∃ j, m.masked_scores P hq hk (fun a b c => some (q a b c))
        (fun a b c => some (k a b c)) (some pm) n h i j ≠ FScore.ninf) :
    nsum (fun j => m.attn_weights P hq hk (fun a b c => some (q a b c))
        (fun a b c => some (k a b c)) (some pm) n h i j) = some 1
    ∧ (∀ j, pm n j = 0 → m.attn_weights P hq hk (fun a b c => some (q a b c))
        (fun a b c => some (k a b c)) (some pm) n h i j = some 0)
    ∧ (m.causal = true → ∀ j : Fin Tk, (i : ℕ) < (j : ℕ) →
        m.attn_weights P hq hk (fun a b c => some (q a b c))
          (fun a b c => some (k a b c)) (some pm) n h i j = some 0) := by
  have hfin : ∀ j, m.masked_scores P hq hk (fun a b c => some (q a b c))
      (fun a b c => some (k a b c)) (some pm) n h i j ≠ FScore.ninf →
      ∃ r, m.masked_scores P hq hk (fun a b c => some (q a b c))
        (fun a b c => some (k a b c)) (some pm) n h i j = FScore.val (some r) := by
    intro j hj
    rcases masked_scores_cases m P hq hk q k (some pm) hsq n h i j with h1 | h1
    · exact absurd h1 hj
    · exact h1
  have core := softmaxRow_spec P.exp hE
    (fun j => m.masked_scores P hq hk (fun a b c => some (q a b c))
      (fun a b c => some (k a b c)) (some pm) n h i j) hfin hrow
  refine ⟨core.1, ?_, ?_⟩
  · intro j hpmj
    exact core.2 j (masked_scores_pad_ninf m P hq hk _ _ pm n h i j hpmj)
  · intro hc j hij
    exact core.2 j (masked_scores_causal_ninf m P hq hk _ _ (some pm) hc n h i j hij)

/-- Witness for the C1 theorem at a concrete instance. -/
theorem attention_rows_sum_to_one_witness :
    (∀ x : ℚ, 0 < qPrims.exp x) ∧ qPrims.sqrt ((1 : ℕ) : ℚ) ≠ 0
    ∧ (∃ j, mhaTiny.masked_scores qPrims (le_refl 1) (le_refl 1)
        (fun a b c => some (xZero111 a b c)) (fun a b c => some (xZero111 a b c))
        (some maskOnes11) 0 0 0 j ≠ FScore.ninf)
    ∧ (nsum (fun j => mhaTiny.attn_weights qPrims (le_refl 1) (le_refl 1)
        (fun a b c => some (xZero111 a b c)) (fun a b c => some (xZero111 a b c))
        (some maskOnes11) 0 0 0 j) = some 1
      ∧ (∀ j, maskOnes11 0 j = 0 →
          mhaTiny.attn_weights qPrims (le_refl 1) (le_refl 1)
            (fun a b c => some (xZero111 a b c)) (fun a b c => some (xZero111 a b c))
            (some maskOnes11) 0 0 0 j = some 0)
      ∧ (mhaTiny.causal = true → ∀ j : Fin 1, ((0 : Fin 1) : ℕ) < (j : ℕ) →
          mhaTiny.attn_weights qPrims (le_refl 1) (le_refl 1)
            (fun a b c => some (xZero111 a b c)) (fun a b c => some (xZero111 a b c))
            (some maskOnes11) 0 0 0 j = some 0)) :=
  ⟨fun _ => one_pos, by norm_num [qPrims], ⟨0, by decide⟩,
    attention_rows_sum_to_one_and_masked_weights_zero mhaTiny qPrims
      (le_refl 1) (le_refl 1) xZero111 xZero111 maskOnes11
      (fun _ => one_pos) (by norm_num [qPrims]) 0 0 0 ⟨0, by decide⟩⟩

/-- C2 (amended): the causal buffer registered at construction is the
lower-triangular 0/1 matrix of shape (max_len, max_len) including the
diagonal (entry (a, b) is 1 iff b ≤ a, else 0); it is sliced per call to the
current (T_output, T_input) shape (the Fin.castLE indexing in
MultiHeadAttention.masked_scores); and in every causal self-attention
forward call on defined inputs the attention weight from query position i
to key position j is exactly 0 whenever j > i, at every query position
whose score row is not entirely masked.  (The original claim omitted the
last proviso: when a padding mask closes an entire key row, float softmax
returns NaN — not 0 — at every position of that row, including j > i; see
the counterexample.) -/
theorem causal_mask_is_tril_and_future_weights_zero
    {K : Type} [LinearOrderedField K] [DecidableEq K]
    {d_k d_model n_heads max_len N Tq Tk : ℕ}
    (m : MultiHeadAttention K d_k d_model n_heads max_len) (P : Prims K)
    (hq : Tq ≤ max_len) (hk : Tk ≤ max_len)
    (q : Fin N → Fin Tq → Fin d_model → K)
    (k : Fin N → Fin Tk → Fin d_model → K)
    (pad_mask : Option (Fin N → Fin Tk → K))
    (hc : m.causal = true)
    (hE : ∀ x, 0 < P.exp x) (hsq : P.sqrt (d_k : K) ≠ 0)
    (n : Fin N) (h : Fin n_heads) (i : Fin Tq)
    (hrow : ∃ j, m.masked_scores P hq hk (fun a b c => some (q a b c))
        (fun a b c => some (k a b c)) pad_mask n h i j ≠ FScore.ninf) :
    (∀ a b : Fin max_len, MultiHeadAttention.causal_mask K max_len a b
        = if (b : ℕ) ≤ (a : ℕ) then 1 else 0)
    ∧ (∀ j : Fin Tk, (i : ℕ) < (j : ℕ) →
        m.attn_weights P hq hk (fun a b c => some (q a b c))
          (fun a b c => some (k a b c)) pad_mask n h i j = some 0) := by
  refine ⟨fun a b => rfl, ?_⟩
  have hfin : ∀ j, m.masked_scores P hq hk (fun a b c => some (q a b c))
      (fun a b c => some (k a b c)) pad_mask n h i j ≠ FScore.ninf →
      ∃ r, m.masked_scores P hq hk (fun a b c => some (q a b c))
        (fun a b c => some (k a b c)) pad_mask n h i j = FScore.val (some r) := by
    intro j hj
    rcases masked_scores_cases m P hq hk q k pad_mask hsq n h i j with h1 | h1
    · exact absurd h1 hj
    · exact h1
  have core := softmaxRow_spec P.exp hE
    (fun j => m.masked_scores P hq hk (fun a b c => some (q a b c))
      (fun a b c => some (k a b c)) pad_mask n h i j) hfin hrow
  intro j hij
  exact core.2 j (masked_scores_causal_ninf m P hq hk _ _ pad_mask hc n h i j hij)

/-- When the padding mask closes the entire key axis for a batch element,
every softmax numerator and the denominator are 0 and the whole attention
weight row is NaN (none), exactly as float softmax behaves on an all--inf
row. -/
theorem attn_weights_nan_of_fully_masked {K : Type} [LinearOrderedField K] [DecidableEq K]
    {d_k d_model n_heads max_len N Tq Tk : ℕ}
    (m : MultiHeadAttention K d_k d_model n_heads max_len) (P : Prims K)
    (hq : Tq ≤ max_len) (hk : Tk ≤ max_len)
    (q : Fin N → Fin Tq → Fin d_model → Option K)
    (k : Fin N → Fin Tk → Fin d_model → Option K)
    (pm : Fin N → Fin Tk → K)
    (n : Fin N) (h : Fin n_heads) (i : Fin Tq)
    (hmask : ∀ j, pm n j = 0) :
    ∀ j, m.attn_weights P hq hk q k (some pm) n h i j = none := by
  intro j
  have hms : ∀ j2, m.masked_scores P hq hk q k (some pm) n h i j2 = FScore.ninf :=
    fun j2 => masked_scores_pad_ninf m P hq hk q k pm n h i j2 (hmask j2)
  show softmaxRow P.exp (m.masked_scores P hq hk q k (some pm) n h i) j = none
  unfold softmaxRow
  have hnum : nsum (fun i2 => mexp P.exp (m.masked_scores P hq hk q k (some pm) n h i i2))
      = some (∑ _i2 : Fin Tk, (0 : K)) :=
    nsum_eq_some _ (fun _ => 0) (fun i2 => by rw [hms i2]; rfl)
  rw [hnum, hms j]
  simp [mexp, ndiv]

/-- C2 counterexample: a causal self-attention forward call in which the
weight from query position 0 to the later key position 1 is not 0.  The
padding mask closes every key position, so the softmax row is 0/0 = NaN
everywhere, including at the future position. -/
theorem causal_future_weight_not_zero_counterexample :
    ¬ (mhaCausal.attn_weights qPrims (le_refl 2) (le_refl 2)
        (fun a b c => some (xZero121 a b c)) (fun a b c => some (xZero121 a b c))
        (some maskZero12) 0 0 0 1 = some 0) := by
  rw [attn_weights_nan_of_fully_masked mhaCausal qPrims (le_refl 2) (le_refl 2)
    (fun a b c => some (xZero121 a b c)) (fun a b c => some (xZero121 a b c))
    maskZero12 0 0 0 (fun _ => rfl) 1]
  simp

/-- Witness for the amended C2 theorem at a concrete instance: the causal
module with no padding mask. -/
theorem causal_mask_is_tril_witness :
    mhaCausal.causal = true ∧ (∀ x : ℚ, 0 < qPrims.exp x)
    ∧ qPrims.sqrt ((1 : ℕ) : ℚ) ≠ 0
    ∧ (∃ j, mhaCausal.masked_scores qPrims (le_refl 2) (le_refl 2)
        (fun a b c => some (xZero121 a b c)) (fun a b c => some (xZero121 a b c))
        none 0 0 0 j ≠ FScore.ninf)
    ∧ ((∀ a b : Fin 2, MultiHeadAttention.causal_mask ℚ 2 a b
          = if (b : ℕ) ≤ (a : ℕ) then 1 else 0)
      ∧ (∀ j : Fin 2, ((0 : Fin 2) : ℕ) < (j : ℕ) →
          mhaCausal.attn_weights qPrims (le_refl 2) (le_refl 2)
            (fun a b c => some (xZero121 a b c)) (fun a b c => some (xZero121 a b c))
            none 0 0 0 j = some 0)) :=
  ⟨rfl, fun _ => one_pos, by norm_num [qPrims], ⟨0, by decide⟩,
    causal_mask_is_tril_and_future_weights_zero mhaCausal qPrims
      (le_refl 2) (le_refl 2) xZero121 xZero121 none rfl
      (fun _ => one_pos) (by norm_num [qPrims]) 0 0 0 ⟨0, by decide⟩⟩

/-- NaN from a fully masked softmax row propagates through the
attention-weighted values and the final projection: the whole output vector
of the attention engine at that batch element is undefined. -/
theorem mha_forward_nan_of_fully_masked {K : Type} [LinearOrderedField K] [DecidableEq K]
    {d_k d_model n_heads max_len N Tq Tk : ℕ}
    (m : MultiHeadAttention K d_k d_model n_heads max_len) (P : Prims K)
    (hq : Tq ≤ max_len) (hk : Tk ≤ max_len)
    (q : Fin N → Fin Tq → Fin d_model → Option K)
    (k : Fin N → Fin Tk → Fin d_model → Option K)
    (v : Fin N → Fin Tk → Fin d_model → Option K)
    (pm : Fin N → Fin Tk → K)
    (hd : 0 < d_k * n_heads) (hTk : 0 < Tk)
    (n : Fin N) (i : Fin Tq)
    (hmask : ∀ j, pm n j = 0) :
    ∀ c, m.forward P hq hk q k v (some pm) n i c = none := by
  intro c
  have hA : ∀ e : Fin (d_k * n_heads),
      (nsum fun j => nmul (m.attn_weights P hq hk q k (some pm) n (headOf e) i j)
        (m.value.app (v n j) (headIdx (headOf e) (dimOf e)))) = none := by
    intro e
    apply nsum_eq_none _ (⟨0, hTk⟩ : Fin Tk)
    rw [attn_weights_nan_of_fully_masked m P hq hk q k pm n (headOf e) i hmask ⟨0, hTk⟩]
    exact nmul_none_left _
  have h2 : (nsum fun e : Fin (d_k * n_heads) => nmul (some (m.fc.weight c e))
      (nsum fun j => nmul (m.attn_weights P hq hk q k (some pm) n (headOf e) i j)
        (m.value.app (v n j) (headIdx (headOf e) (dimOf e))))) = none := by
    apply nsum_eq_none _ (⟨0, hd⟩ : Fin (d_k * n_heads))
    rw [hA ⟨0, hd⟩]
    exact nmul_none_right _
  show nadd (nsum fun e => nmul (some (m.fc.weight c e))
      (nsum fun j => nmul (m.attn_weights P hq hk q k (some pm) n (headOf e) i j)
        (m.value.app (v n j) (headIdx (headOf e) (dimOf e))))) (some (m.fc.bias c)) = none
  rw [h2]
  exact nadd_none_left _

/-- C7 (amended): the attention engine contains no guard for a fully
masked softmax row.  When the entire key-side mask of a query position is
closed, F.softmax computes 0/0 at every key position of that row, so the
attention weights of the row are NaN, and the NaN propagates silently
through the weighted sum and the final projection: every coordinate of the
output at that batch element is undefined, not an explicitly defined value
such as a zero vector.  (The original claim asserted the opposite: that the
engine detects the condition and emits a defined result; the counterexample
evaluates the engine on such an input.) -/
theorem fully_masked_row_yields_nan_not_guarded
    {K : Type} [LinearOrderedField K] [DecidableEq K]
    {d_k d_model n_heads max_len N Tq Tk : ℕ}
    (m : MultiHeadAttention K d_k d_model n_heads max_len) (P : Prims K)
    (hq : Tq ≤ max_len) (hk : Tk ≤ max_len)
    (q : Fin N → Fin Tq → Fin d_model → Option K)
    (k : Fin N → Fin Tk → Fin d_model → Option K)
    (v : Fin N → Fin Tk → Fin d_model → Option K)
    (pm : Fin N → Fin Tk → K)
    (hd : 0 < d_k * n_heads) (hTk : 0 < Tk)
    (n : Fin N) (i : Fin Tq)
    (hmask : ∀ j, pm n j = 0) :
    (∀ h : Fin n_heads, ∀ j, m.attn_weights P hq hk q k (some pm) n h i j = none)
    ∧ (∀ c, m.forward P hq hk q k v (some pm) n i c = none) :=
  ⟨fun h => attn_weights_nan_of_fully_masked m P hq hk q k pm n h i hmask,
   mha_forward_nan_of_fully_masked m P hq hk q k v pm hd hTk n i hmask⟩

/-- C7 counterexample: a concrete forward evaluation in which the single
query position has its entire key-side mask closed; the engine output at
that position is undefined (NaN), not an explicitly defined result. -/
theorem fully_masked_row_no_guard_counterexample :
    mhaTiny.forward qPrims (le_refl 1) (le_refl 1)
      (fun a b c => some (xZero111 a b c)) (fun a b c => some (xZero111 a b c))
      (fun a b c => some (xZero111 a b c)) (some maskZero11) 0 0 0 = none :=
  mha_forward_nan_of_fully_masked mhaTiny qPrims (le_refl 1) (le_refl 1)
    (fun a b c => some (xZero111 a b c)) (fun a b c => some (xZero111 a b c))
    (fun a b c => some (xZero111 a b c)) maskZero11
    (by decide) (by decide) 0 0 (fun _ => rfl) 0

/-- Witness for the amended C7 theorem at a concrete instance. -/
theorem fully_masked_row_yields_nan_witness :
    (0 < 1 * 1) ∧ (0 < 1) ∧ (∀ j : Fin 1, maskZero11 0 j = 0)
    ∧ ((∀ h : Fin 1, ∀ j, mhaTiny.attn_weights qPrims (le_refl 1) (le_refl 1)
          (fun a b c => some (xZero111 a b c)) (fun a b c => some (xZero111 a b c))
          (some maskZero11) 0 h 0 j = none)
      ∧ (∀ c, mhaTiny.forward qPrims (le_refl 1) (le_refl 1)
          (fun a b c => some (xZero111 a b c)) (fun a b c => some (xZero111 a b c))
          (fun a b c => some (xZero111 a b c)) (some maskZero11) 0 0 c = none)) :=
  ⟨by decide, by decide, fun _ => rfl,
    fully_masked_row_yields_nan_not_guarded mhaTiny qPrims (le_refl 1) (le_refl 1)
      (fun a b c => some (xZero111 a b c)) (fun a b c => some (xZero111 a b c))
      (fun a b c => some (xZero111 a b c)) maskZero11
      (by decide) (by decide) 0 0 (fun _ => rfl)⟩

/-- C6: the forward pass of a DecoderBlock as constructed by __init__ is
exactly the three-sublayer composition, in order: (a) x1 = LayerNorm1 of
dec_input plus causal self-attention of dec_input against itself under the
decoder padding mask only; (b) x2 = LayerNorm2 of x1 plus cross-attention
with query x1, key = value = enc_output, masked only by the encoder padding
mask and with no causal restriction (causal flag false); (c) x3 = LayerNorm3
of x2 plus the feed-forward sublayer; followed by the final dropout. -/
theorem decoder_block_is_three_sublayer_composition
    {K : Type} [LinearOrderedField K] [DecidableEq K]
    {d_k d_model n_heads max_len N Tdec Tenc : ℕ}
    (ln1 ln2 ln3 : LayerNorm K d_model)
    (k1 q1 v1 : Linear K d_model (d_k * n_heads)) (fc1 : Linear K (d_k * n_heads) d_model)
    (k2 q2 v2 : Linear K d_model (d_k * n_heads)) (fc2 : Linear K (d_k * n_heads) d_model)
    (ann : FeedForward K d_model) (P : Prims K)
    (hTd : Tdec ≤ max_len) (hTe : Tenc ≤ max_len)
    (enc_output : Fin N → Fin Tenc → Fin d_model → Option K)
    (dec_input : Fin N → Fin Tdec → Fin d_model → Option K)
    (enc_mask : Option (Fin N → Fin Tenc → K))
    (dec_mask : Option (Fin N → Fin Tdec → K)) :
    (DecoderBlock.init ln1 ln2 ln3 k1 q1 v1 fc1 k2 q2 v2 fc2 ann).forward P hTd hTe
        enc_output dec_input enc_mask dec_mask
      = dropoutEval (sublayerT P ln3 (fun y n t => ann.app P (y n t))
          (sublayerT P ln2
            (fun y => MultiHeadAttention.forward ⟨k2, q2, v2, fc2, false⟩ P hTd hTe
              y enc_output enc_output enc_mask)
            (sublayerT P ln1
              (fun y => MultiHeadAttention.forward ⟨k1, q1, v1, fc1, true⟩ P hTd hTd
                y y y dec_mask)
              dec_input))) := rfl

/-- Witness for the C6 theorem at a concrete instance. -/
theorem decoder_block_composition_witness :
    (1 ≤ 1) ∧
    ((DecoderBlock.init (qLN 1) (qLN 1) (qLN 1)
        (zeroLinear 1 1) (zeroLinear 1 1) (zeroLinear 1 1) (zeroLinear 1 1)
        (zeroLinear 1 1) (zeroLinear 1 1) (zeroLinear 1 1) (zeroLinear 1 1)
        (qFF 1) : DecoderBlock ℚ 1 1 1 1)).forward qPrims (le_refl 1) (le_refl 1)
        (fun a b c => some (xZero111 a b c)) (fun a b c => some (xZero111 a b c))
        none none
      = dropoutEval (sublayerT qPrims (qLN 1) (fun y n t => (qFF 1).app qPrims (y n t))
          (sublayerT qPrims (qLN 1)
            (fun y => MultiHeadAttention.forward mhaTiny
              qPrims (le_refl 1) (le_refl 1)
              y (fun a b c => some (xZero111 a b c)) (fun a b c => some (xZero111 a b c)) none)
            (sublayerT qPrims (qLN 1)
              (fun y => MultiHeadAttention.forward mhaTinyCausal
                qPrims (le_refl 1) (le_refl 1) y y y none)
              (fun a b c => some (xZero111 a b c))))) :=
  ⟨le_refl 1,
    @decoder_block_is_three_sublayer_composition ℚ _ _ 1 1 1 1 1 1 1
      (qLN 1) (qLN 1) (qLN 1)
      (zeroLinear 1 1) (zeroLinear 1 1) (zeroLinear 1 1) (zeroLinear 1 1)
      (zeroLinear 1 1) (zeroLinear 1 1) (zeroLinear 1 1) (zeroLinear 1 1)
      (qFF 1) qPrims (le_refl 1) (le_refl 1)
      (fun a b c => some (xZero111 a b c)) (fun a b c => some (xZero111 a b c))
      none none⟩

/-- C9: with identical weights and dropout treated as the identity
(evaluation mode), Transformer.forward equals the composition of
Encoder.forward followed by Decoder.forward on the encoder output, with the
same masks, including propagation of an embedding failure. -/
theorem transformer_forward_is_encoder_then_decoder
    {K : Type} [LinearOrderedField K] [DecidableEq K]
    {enc_vocab dec_vocab max_len d_k d_model n_heads n_layers N Tenc Tdec : ℕ}
    (t : Transformer K enc_vocab dec_vocab max_len d_k d_model n_heads n_layers)
    (P : Prims K) (hTe : Tenc ≤ max_len) (hTd : Tdec ≤ max_len)
    (enc_input : Fin N → Fin Tenc → ℕ)
    (dec_input : Fin N → Fin Tdec → ℕ)
    (enc_mask : Option (Fin N → Fin Tenc → K))
    (dec_mask : Option (Fin N → Fin Tdec → K)) :
    t.forward P hTe hTd enc_input dec_input enc_mask dec_mask
      = (t.encoder.forward P hTe enc_input enc_mask).bind
          (fun enc_output =>
            t.decoder.forward P hTe hTd enc_output dec_input enc_mask dec_mask) := rfl

/-- Witness for the C9 theorem at a concrete instance. -/
theorem transformer_forward_composition_witness :
    (1 ≤ 1) ∧
    tfTiny.forward qPrims (le_refl 1) (le_refl 1)
        (fun _ _ => 0 : Fin 1 → Fin 1 → ℕ) (fun _ _ => 0 : Fin 1 → Fin 1 → ℕ) none none
      = (tfTiny.encoder.forward qPrims (le_refl 1)
            (fun _ _ => 0 : Fin 1 → Fin 1 → ℕ) none).bind
          (fun enc_output =>
            tfTiny.decoder.forward qPrims (le_refl 1) (le_refl 1) enc_output
              (fun _ _ => 0 : Fin 1 → Fin 1 → ℕ) none none) :=
  ⟨le_refl 1,
    transformer_forward_is_encoder_then_decoder tfTiny qPrims (le_refl 1) (le_refl 1)
      (fun _ _ => 0) (fun _ _ => 0) none none⟩

/-- C8: a token id at or above vocab_size presented to the embedding lookup
of Encoder.forward or Decoder.forward makes the call fail with the
out-of-range embedding error (no wrapping, no clamping, no result). -/
theorem embedding_out_of_range_fails
    {K : Type} [LinearOrderedField K] [DecidableEq K]
    {enc_vocab dec_vocab max_len d_k d_model n_heads n_layers N Tenc Tdec : ℕ}
    (e : Encoder K enc_vocab max_len d_k d_model n_heads n_layers)
    (d : Decoder K dec_vocab max_len d_k d_model n_heads n_layers)
    (P : Prims K) (hTe : Tenc ≤ max_len) (hTd : Tdec ≤ max_len)
    (x : Fin N → Fin Tenc → ℕ) (y : Fin N → Fin Tdec → ℕ)
    (enc_output : Fin N → Fin Tenc → Fin d_model → Option K)
    (enc_mask : Option (Fin N → Fin Tenc → K))
    (dec_mask : Option (Fin N → Fin Tdec → K)) :
    ((∃ n t, enc_vocab ≤ x n t) →
      e.forward P hTe x enc_mask = Except.error "index out of range in self")
    ∧ ((∃ n t, dec_vocab ≤ y n t) →
      d.forward P hTe hTd enc_output y enc_mask dec_mask
        = Except.error "index out of range in self") := by
  constructor
  · intro hx
    have hne : ¬ ∀ n t, x n t < enc_vocab := by
      obtain ⟨n, t, h⟩ := hx
      intro hall
      exact absurd (hall n t) (not_lt.mpr h)
    unfold Encoder.forward embedAll
    rw [dif_neg hne]
    rfl
  · intro hy
    have hne : ¬ ∀ n t, y n t < dec_vocab := by
      obtain ⟨n, t, h⟩ := hy
      intro hall
      exact absurd (hall n t) (not_lt.mpr h)
    unfold Decoder.forward embedAll
    rw [dif_neg hne]
    rfl

/-- Witness for the C8 theorem at a concrete instance: vocabulary size 1,
token id 5. -/
theorem embedding_out_of_range_witness :
    (1 ≤ 1) ∧ (∃ n : Fin 1, ∃ t : Fin 1, 1 ≤ (fun _ _ => 5 : Fin 1 → Fin 1 → ℕ) n t)
    ∧ (((∃ n t, 1 ≤ (fun _ _ => 5 : Fin 1 → Fin 1 → ℕ) n t) →
        encTiny.forward qPrims (le_refl 1) (fun _ _ => 5 : Fin 1 → Fin 1 → ℕ) none
          = Except.error "index out of range in self")
      ∧ ((∃ n t, 1 ≤ (fun _ _ => 5 : Fin 1 → Fin 1 → ℕ) n t) →
        decTiny.forward qPrims (le_refl 1) (le_refl 1)
            (fun a b c => some (xZero111 a b c)) (fun _ _ => 5 : Fin 1 → Fin 1 → ℕ)
            none none
          = Except.error "index out of range in self")) :=
  ⟨le_refl 1, ⟨0, 0, by decide⟩,
    embedding_out_of_range_fails encTiny decTiny qPrims (le_refl 1) (le_refl 1)
      (fun _ _ => 5) (fun _ _ => 5)
      (fun a b c => some (xZero111 a b c)) none none⟩

/-! ### Lemmas about the generation loop -/

/-- The fold underlying argmaxIdx attains a value at least as large as its
accumulator and as every list element. -/
theorem argmax_foldl_le {K : Type} [LinearOrder K] {V : ℕ} (f : Fin V → K) :
    ∀ (l : List (Fin V)) (a : Fin V),
      f a ≤ f (l.foldl (fun best j => if f best < f j then j else best) a)
      ∧ ∀ x ∈ l, f x ≤ f (l.foldl (fun best j => if f best < f j then j else best) a) := by
  intro l
  induction l with
  | nil => intro a; exact ⟨le_refl _, by simp⟩
  | cons b tl ih =>
    intro a
    have hstep : f a ≤ f (if f a < f b then b else a)
        ∧ f b ≤ f (if f a < f b then b else a) := by
      by_cases hab : f a < f b
      · rw [if_pos hab]; exact ⟨le_of_lt hab, le_refl _⟩
      · rw [if_neg hab]; exact ⟨le_refl _, le_of_not_lt hab⟩
    have ihs := ih (if f a < f b then b else a)
    refine ⟨le_trans hstep.1 ihs.1, ?_⟩
    intro x hx
    rcases List.mem_cons.mp hx with rfl | hx2
    · exact le_trans hstep.2 ihs.1
    · exact ihs.2 x hx2

/-- torch.argmax selects a highest-scoring index: every vocabulary entry
scores at most the selected one. -/
theorem le_argmaxIdx {K : Type} [LinearOrder K] {V : ℕ} (hV : 0 < V)
    (f : Fin V → K) (w : Fin V) : f w ≤ f (argmaxIdx hV f) := by
  unfold argmaxIdx
  exact (argmax_foldl_le f (List.finRange V) ⟨0, hV⟩).2 w (List.mem_finRange w)

/-- Core facts about the bounded generation loop, by induction on the
remaining step count: the final sequence grows by at most the step count;
if it grew by strictly less, the loop broke early and the last appended
token is the end id; and if the predictor never emits the end id, the
sequence grows by exactly the step count. -/
theorem translateLoop_spec {K : Type} [LinearOrder K] [Zero K] {V : ℕ} (hV : 0 < V)
    (dF : List ℕ → List ℕ → List (Fin V → K)) (endId : ℕ) :
    ∀ (steps : ℕ) (s : GenState),
      (translateLoop hV dF endId steps s).dec_input_ids.length
          ≤ s.dec_input_ids.length + steps
      ∧ ((translateLoop hV dF endId steps s).dec_input_ids.length
            < s.dec_input_ids.length + steps →
          (translateLoop hV dF endId steps s).dec_input_ids.getLast? = some endId)
      ∧ ((∀ s2, predToken hV dF s2 ≠ endId) →
          (translateLoop hV dF endId steps s).dec_input_ids.length
            = s.dec_input_ids.length + steps) := by
  intro steps
  induction steps with
  | zero =>
    intro s
    refine ⟨le_refl _, ?_, fun _ => rfl⟩
    intro hlt
    exact absurd hlt (lt_irrefl _)
  | succ k ih =>
    intro s
    by_cases hp : predToken hV dF s = endId
    · have hloop : translateLoop hV dF endId (k + 1) s = genStep hV dF s := by
        have heq : translateLoop hV dF endId (k + 1) s
            = if predToken hV dF s = endId then genStep hV dF s
              else translateLoop hV dF endId k (genStep hV dF s) := rfl
        rw [heq, if_pos hp]
      have hlen : (genStep hV dF s).dec_input_ids.length = s.dec_input_ids.length + 1 := by
        unfold genStep
        simp
      refine ⟨?_, ?_, ?_⟩
      · rw [hloop, hlen]; omega
      · intro _
        rw [hloop]
        unfold genStep
        simp [hp]
      · intro hall
        exact absurd hp (hall s)
    · have hloop : translateLoop hV dF endId (k + 1) s
          = translateLoop hV dF endId k (genStep hV dF s) := by
        have heq : translateLoop hV dF endId (k + 1) s
            = if predToken hV dF s = endId then genStep hV dF s
              else translateLoop hV dF endId k (genStep hV dF s) := rfl
        rw [heq, if_neg hp]
      have hlen : (genStep hV dF s).dec_input_ids.length = s.dec_input_ids.length + 1 := by
        unfold genStep
        simp
      obtain ⟨ih1, ih2, ih3⟩ := ih (genStep hV dF s)
      refine ⟨?_, ?_, ?_⟩
      · rw [hloop]; omega
      · intro hlt
        rw [hloop] at hlt ⊢
        exact ih2 (by omega)
      · intro hall
        rw [hloop, ih3 hall, hlen]
        omega

/-- If the predictor never emits the end id and the mask invariant holds at
entry (mask = ones of the sequence length), then after k loop steps the
sequence has grown by exactly k and the mask is all-ones of the final
length. -/
theorem translateLoop_no_end_state {K : Type} [LinearOrder K] [Zero K] {V : ℕ}
    (hV : 0 < V) (dF : List ℕ → List ℕ → List (Fin V → K)) (endId : ℕ)
    (hne : ∀ s2, predToken hV dF s2 ≠ endId) :
    ∀ (k : ℕ) (s : GenState),
      s.dec_attn_mask = List.replicate s.dec_input_ids.length 1 →
      (translateLoop hV dF endId k s).dec_input_ids.length = s.dec_input_ids.length + k
      ∧ (translateLoop hV dF endId k s).dec_attn_mask
          = List.replicate (translateLoop hV dF endId k s).dec_input_ids.length 1 := by
  intro k
  induction k with
  | zero => intro s hs; exact ⟨rfl, hs⟩
  | succ k2 ih =>
    intro s hs
    have hloop : translateLoop hV dF endId (k2 + 1) s
        = translateLoop hV dF endId k2 (genStep hV dF s) := by
      have heq : translateLoop hV dF endId (k2 + 1) s
          = if predToken hV dF s = endId then genStep hV dF s
            else translateLoop hV dF endId k2 (genStep hV dF s) := rfl
      rw [heq, if_neg (hne s)]
    have hglen : (genStep hV dF s).dec_input_ids.length = s.dec_input_ids.length + 1 := by
      unfold genStep
      simp
    have hgmask : (genStep hV dF s).dec_attn_mask
        = List.replicate (genStep hV dF s).dec_input_ids.length 1 := by
      unfold genStep
      simp
    obtain ⟨ih1, ih2⟩ := ih (genStep hV dF s) hgmask
    constructor
    · rw [hloop, ih1, hglen]; omega
    · rw [hloop]; exact ih2

/-- C3: for every model and input, the generation loop of translate halts
within max_steps + 1 = 33 tokens (the length-1 start sequence plus at most
32 appended tokens); it halts earlier than the step bound only because the
newly produced id equals the end-of-sequence id 0 (the final token is then
that end id), and conversely, if the model never produces the end id the
loop runs all 32 steps. -/
theorem translate_terminates_within_bound {K : Type} [LinearOrder K] [Zero K]
    {V : ℕ} (hV : 0 < V) (dF : List ℕ → List ℕ → List (Fin V → K)) :
    (translateIds hV dF).length ≤ 33
    ∧ ((translateIds hV dF).length < 33 → (translateIds hV dF).getLast? = some 0)
    ∧ ((∀ s, predToken hV dF s ≠ 0) → (translateIds hV dF).length = 33) := by
  have h := translateLoop_spec hV dF 0 32 translateInit
  have hlen : translateInit.dec_input_ids.length = 1 := rfl
  unfold translateIds
  rw [hlen] at h
  exact h

/-- Witness for the C3 theorem at a concrete instance: a predictor over a
one-token vocabulary, which always emits the end id 0. -/
theorem translate_terminates_witness :
    (0 < 1)
    ∧ ((translateIds Nat.one_pos dfConst).length ≤ 33
      ∧ ((translateIds Nat.one_pos dfConst).length < 33 →
          (translateIds Nat.one_pos dfConst).getLast? = some 0)
      ∧ ((∀ s, predToken Nat.one_pos dfConst s ≠ 0) →
          (translateIds Nat.one_pos dfConst).length = 33)) :=
  ⟨Nat.one_pos, translate_terminates_within_bound Nat.one_pos dfConst⟩

/-- C4: each transition of the generation loop appends exactly the greedy
arg-max token of the logits at the last position of the full decoder run
over the entire current sequence (the appended token maximises the
last-position logits over the vocabulary), and recomputes the decoder mask
as all-ones of the new length; consequently after k non-terminating steps
from the length-1 start state the decoder input has length 1 + k and its
mask is all ones.  The encoder output and encoder mask are the fixed data
closed over by the decoder function dF and are passed unchanged to every
step. -/
theorem generation_step_structure {K : Type} [LinearOrder K] [Zero K]
    {V : ℕ} (hV : 0 < V) (dF : List ℕ → List ℕ → List (Fin V → K))
    (endId : ℕ) (s : GenState) (k : ℕ) :
    (genStep hV dF s).dec_input_ids = s.dec_input_ids ++ [predToken hV dF s]
    ∧ (genStep hV dF s).dec_attn_mask = List.replicate (s.dec_input_ids.length + 1) 1
    ∧ (∀ w : Fin V, lastLogits (dF s.dec_input_ids s.dec_attn_mask) w
        ≤ lastLogits (dF s.dec_input_ids s.dec_attn_mask)
            (argmaxIdx hV (lastLogits (dF s.dec_input_ids s.dec_attn_mask))))
    ∧ ((∀ s2, predToken hV dF s2 ≠ endId) →
        (translateLoop hV dF endId k translateInit).dec_input_ids.length = 1 + k
        ∧ (translateLoop hV dF endId k translateInit).dec_attn_mask
            = List.replicate (1 + k) 1) := by
  refine ⟨rfl, rfl, fun w => le_argmaxIdx hV _ w, ?_⟩
  intro hne
  have hinit : translateInit.dec_attn_mask
      = List.replicate translateInit.dec_input_ids.length 1 := rfl
  obtain ⟨h1, h2⟩ := translateLoop_no_end_state hV dF endId hne k translateInit hinit
  have hlen : (translateLoop hV dF endId k translateInit).dec_input_ids.length = 1 + k := by
    rw [h1]
    rfl
  exact ⟨hlen, by rw [h2, hlen]⟩

/-- Witness for the C4 theorem at a concrete instance: the one-token
predictor (always emits 0) with end id 5, which it never emits. -/
theorem generation_step_structure_witness :
    (0 < 1)
    ∧ ((genStep Nat.one_pos dfConst translateInit).dec_input_ids
          = translateInit.dec_input_ids ++ [predToken Nat.one_pos dfConst translateInit]
      ∧ (genStep Nat.one_pos dfConst translateInit).dec_attn_mask
          = List.replicate (translateInit.dec_input_ids.length + 1) 1
      ∧ (∀ w : Fin 1, lastLogits (dfConst translateInit.dec_input_ids translateInit.dec_attn_mask) w
          ≤ lastLogits (dfConst translateInit.dec_input_ids translateInit.dec_attn_mask)
              (argmaxIdx Nat.one_pos
                (lastLogits (dfConst translateInit.dec_input_ids translateInit.dec_attn_mask))))
      ∧ ((∀ s2, predToken Nat.one_pos dfConst s2 ≠ 5) →
          (translateLoop Nat.one_pos dfConst 5 2 translateInit).dec_input_ids.length = 1 + 2
          ∧ (translateLoop Nat.one_pos dfConst 5 2 translateInit).dec_attn_mask
              = List.replicate (1 + 2) 1)) :=
  ⟨Nat.one_pos, generation_step_structure Nat.one_pos dfConst 5 translateInit 2⟩

/-- C5: with d_model even, PositionalEncoding construction succeeds and the
table satisfies PE[pos, i] = sin(pos / 10000 ^ (2 * (i / 2) / d_model)) for
even i and cos of the same argument for odd i, for all pos < max_len and
i < d_model, over the real numbers with the actual exp/log/sin/cos; and
forward on an embedded input x of shape (N, T, d_model) with T ≤ max_len
returns x + PE[:T, :] broadcast over the batch (dropout is the identity at
inference).  The table is a pure function of (d_model, max_len) built once
at construction and holds no learnable parameters. -/
theorem positional_encoding_table_closed_form (d_model max_len : ℕ)
    (hd : d_model % 2 = 0) :
    PositionalEncoding.init (⟨Real.exp, Real.sqrt, id, Real.sin, Real.cos, Real.log⟩ : Prims ℝ)
        d_model max_len
      = Except.ok (fun (pos : Fin max_len) (i : Fin d_model) =>
          if (i : ℕ) % 2 = 0 then
            Real.sin ((pos : ℝ) / (10000 : ℝ) ^ (((2 * ((i : ℕ) / 2) : ℕ) : ℝ) / (d_model : ℝ)))
          else
            Real.cos ((pos : ℝ) / (10000 : ℝ) ^ (((2 * ((i : ℕ) / 2) : ℕ) : ℝ) / (d_model : ℝ))))
    ∧ (∀ (pe : Fin max_len → Fin d_model → ℝ) (N T : ℕ) (hT : T ≤ max_len)
        (x : Fin N → Fin T → Fin d_model → Option ℝ) (n : Fin N) (t : Fin T) (i2 : Fin d_model),
        PositionalEncoding.forward pe hT x n t i2
          = nadd (x n t i2) (some (pe (Fin.castLE hT t) i2))) := by
  constructor
  · have hsin : sliceAssignOK ((d_model + 1) / 2) ((d_model + 1) / 2) = true := by
      unfold sliceAssignOK
      simp
    have hcos : sliceAssignOK (d_model / 2) ((d_model + 1) / 2) = true := by
      unfold sliceAssignOK
      simp only [Bool.or_eq_true, beq_iff_eq]
      left
      omega
    unfold PositionalEncoding.init
    rw [if_pos hsin, if_pos hcos]
    congr 1
    funext pos i
    have harg : (pos : ℝ) * PositionalEncoding.div_term
        (⟨Real.exp, Real.sqrt, id, Real.sin, Real.cos, Real.log⟩ : Prims ℝ) d_model ((i : ℕ) / 2)
        = (pos : ℝ) / (10000 : ℝ) ^ (((2 * ((i : ℕ) / 2) : ℕ) : ℝ) / (d_model : ℝ)) := by
      unfold PositionalEncoding.div_term
      rw [Real.rpow_def_of_pos (by norm_num : (0:ℝ) < 10000)]
      rw [show (((2 * ((i : ℕ) / 2) : ℕ) : ℝ) * (-(Real.log (10000 : ℝ)) / (d_model : ℝ)))
            = -(Real.log (10000 : ℝ) * (((2 * ((i : ℕ) / 2) : ℕ) : ℝ) / (d_model : ℝ))) from by
          ring]
      simp only [Real.exp_neg]
      ring
    by_cases hi : (i : ℕ) % 2 = 0
    · rw [if_pos hi, if_pos hi, harg]
    · rw [if_neg hi, if_neg hi, harg]
  · intro pe N T hT x n t i2
    rfl

/-- Witness for the C5 theorem at a concrete instance. -/
theorem positional_encoding_table_witness :
    (2 % 2 = 0)
    ∧ (PositionalEncoding.init
          (⟨Real.exp, Real.sqrt, id, Real.sin, Real.cos, Real.log⟩ : Prims ℝ) 2 1
        = Except.ok (fun (pos : Fin 1) (i : Fin 2) =>
            if (i : ℕ) % 2 = 0 then
              Real.sin ((pos : ℝ) / (10000 : ℝ) ^ (((2 * ((i : ℕ) / 2) : ℕ) : ℝ) / ((2 : ℕ) : ℝ)))
            else
              Real.cos ((pos : ℝ) / (10000 : ℝ) ^ (((2 * ((i : ℕ) / 2) : ℕ) : ℝ) / ((2 : ℕ) : ℝ))))
      ∧ (∀ (pe : Fin 1 → Fin 2 → ℝ) (N T : ℕ) (hT : T ≤ 1)
          (x : Fin N → Fin T → Fin 2 → Option ℝ) (n : Fin N) (t : Fin T) (i2 : Fin 2),
          PositionalEncoding.forward pe hT x n t i2
            = nadd (x n t i2) (some (pe (Fin.castLE hT t) i2)))) :=
  ⟨rfl, positional_encoding_table_closed_form 2 1 rfl⟩

/-- C10 (amended): PositionalEncoding construction succeeds exactly when
d_model is even or d_model = 1, and for every odd d_model ≥ 3 it fails with
the cosine shape-mismatch error before any forward call, because the cosine
assignment writes a source of width (d_model + 1) / 2 into the d_model / 2
odd-indexed columns.  (The original claim said construction fails for every
odd d_model; at d_model = 1 the odd-column slice is empty and the width-1
cosine source is a singleton dimension, which torch broadcasting expands to
width 0, so construction succeeds — see the counterexample.) -/
theorem positional_encoding_parity {K : Type} [Field K] (P : Prims K)
    (d_model max_len : ℕ) :
    ((∃ tbl, PositionalEncoding.init P d_model max_len = Except.ok tbl)
      ↔ (d_model % 2 = 0 ∨ d_model = 1))
    ∧ (d_model % 2 = 1 → 3 ≤ d_model →
        PositionalEncoding.init P d_model max_len
          = Except.error "shape mismatch in positional encoding cosine assignment") := by
  have hsin : sliceAssignOK ((d_model + 1) / 2) ((d_model + 1) / 2) = true := by
    unfold sliceAssignOK
    simp
  have hcosiff : sliceAssignOK (d_model / 2) ((d_model + 1) / 2) = true
      ↔ (d_model % 2 = 0 ∨ d_model = 1) := by
    unfold sliceAssignOK
    simp only [Bool.or_eq_true, beq_iff_eq]
    omega
  constructor
  · constructor
    · rintro ⟨tbl, htbl⟩
      by_contra hpar
      have hcosf : ¬ (sliceAssignOK (d_model / 2) ((d_model + 1) / 2) = true) := by
        rw [hcosiff]
        exact hpar
      unfold PositionalEncoding.init at htbl
      rw [if_pos hsin, if_neg hcosf] at htbl
      exact Except.noConfusion htbl
    · intro hpar
      unfold PositionalEncoding.init
      rw [if_pos hsin, if_pos (hcosiff.mpr hpar)]
      exact ⟨_, rfl⟩
  · intro hodd h3
    have hcosf : ¬ (sliceAssignOK (d_model / 2) ((d_model + 1) / 2) = true) := by
      rw [hcosiff]
      omega
    unfold PositionalEncoding.init
    rw [if_pos hsin, if_neg hcosf]

/-- C10 counterexample: at the odd width d_model = 1 the construction
succeeds (the cosine source broadcasts into the empty odd-column slice), so
the original claim that every odd d_model fails is refuted at this input. -/
theorem positional_encoding_d1_succeeds_counterexample :
    ∃ tbl, PositionalEncoding.init qPrims 1 4 = Except.ok tbl :=
  ⟨_, rfl⟩

/-- Witness for the amended C10 theorem at a concrete instance, d_model = 3. -/
theorem positional_encoding_parity_witness :
    (3 % 2 = 1) ∧ (3 ≤ 3)
    ∧ ((∃ tbl, PositionalEncoding.init qPrims 3 4 = Except.ok tbl)
        ↔ (3 % 2 = 0 ∨ 3 = 1))
    ∧ PositionalEncoding.init qPrims 3 4
        = Except.error "shape mismatch in positional encoding cosine assignment" :=
  ⟨rfl, le_refl 3, (positional_encoding_parity qPrims 3 4).1,
    (positional_encoding_parity qPrims 3 4).2 rfl (le_refl 3)⟩
